import Mathlib

/-
  Shallow embedding of the PhysicsTools-MVAComputer variable processors
  `ProcLikelihood` (src/src/ProcLikelihood.cc) and `ProcNormalize`
  (src/src/ProcNormalize.cc).

  Modelling conventions:
  * C++ `double` values are modelled as real numbers `ℝ`.
  * The external curve primitives (`Spline`, `Calibration::HistogramF`) are out
    of scope of the core; they are modelled as records of abstract functions
    and scalar queries, exactly the interface the two processors consume.
  * The pipeline cursors (`ConfIterator` / `ValueIterator`) are modelled from
    the spec (section 6), since `VarProcessor.h` is not part of the given
    sources: an evaluation cursor walks the ordered input slots, each slot
    holding a list of scalar values; every `iter()` commit appends one output
    value list (possibly empty) to the result, and `iter << v` accumulates a
    value into the pending commit of the current slot.  `ProcLikelihood::eval`
    emits exactly one commit (`iter(x)` = `[[x]]`, `iter()` = `[[]]`).
  * An event is a `List (List ℝ)`: the ordered slots with their values.
-/

namespace MVAComputer

/-- Interface of the external monotonic interpolating curve class `Spline`
(point evaluation, entry count, total area, cumulative integral). -/
structure Spline where
  eval : ℝ → ℝ
  numberOfEntries : ℝ
  getArea : ℝ
  integral : ℝ → ℝ

/-- The polymorphic per-variable PDF of `ProcLikelihood` (ProcLikelihood.cc
lines 44-73): either a `SplinePDF` (range-normalised spline evaluation) or a
`HistogramPDF` (normalised-bin lookup). -/
inductive PDF where
  | splinePDF (min width : ℝ) (spline : Spline)
  | histogramPDF (normalizedValue : ℝ → ℝ) (numberOfBins : ℝ)

/-- `SplinePDF::eval` / `HistogramPDF::eval` (ProcLikelihood.cc lines 103-113):
the spline variant maps `value` into the unit range and rescales by
`numberOfEntries / getArea`; the histogram variant rescales the normalised bin
content by the bin count. -/
noncomputable def PDF.eval : PDF → ℝ → ℝ
  | .splinePDF mn w s, value => s.eval ((value - mn) / w) * s.numberOfEntries / s.getArea
  | .histogramPDF nv nb, value => nv value * nb

/-- A signal/background PDF pair (ProcLikelihood.cc lines 75-93). -/
structure SigBkg where
  signal : PDF
  background : PDF

/-- One normalisation map of `ProcNormalize` (ProcNormalize.cc lines 43-55):
range `min`/`width` plus the equalisation spline. -/
structure Map where
  min : ℝ
  width : ℝ
  spline : Spline

/-- The state of a `ProcLikelihood` processor (ProcLikelihood.cc lines 95-98).
On construction `nCategories = 1` (line 121). -/
structure ProcLikelihood where
  pdfs : List SigBkg
  categoryIdx : ℤ
  nCategories : ℕ
  bias : ℝ

/-- The state of a `ProcNormalize` processor (ProcNormalize.cc lines 57-59).
On construction `nCategories = 1` (line 70). -/
structure ProcNormalize where
  maps : List Map
  categoryIdx : ℤ
  nCategories : ℕ

/-- The slot-arity vocabulary `Variable::FLAG_*` used by `configure`. -/
inductive Flag where
  | FLAG_NONE
  | FLAG_ALL
  | FLAG_OPTIONAL
deriving DecidableEq

/-- The per-slot input flags declared by both `configure` loops
(ProcLikelihood.cc lines 137-143, ProcNormalize.cc lines 85-91): the slot at
`categoryIdx` gets `FLAG_NONE`, every other slot `FLAG_ALL`. -/
def confFlags (categoryIdx : ℤ) (n : ℕ) : List Flag :=
  (List.range n).map fun i => if (i : ℤ) = categoryIdx then Flag.FLAG_NONE else Flag.FLAG_ALL

/-- The admission check of both `configure` functions with `categoryIdx ≥ 0`:
the C++ early return `if ((int)n < categoryIdx + 1) return;`
(ProcLikelihood.cc line 129, ProcNormalize.cc line 77) admits `n` exactly when
this returns `true`. -/
def admitsCategory (categoryIdx : ℤ) (n : ℕ) : Bool :=
  decide (¬ ((n : ℤ) < categoryIdx + 1))

/-- `ProcLikelihood::configure` (ProcLikelihood.cc lines 126-146).  The outer
`Option` is `none` exactly when the C++ function would execute the unsigned
division `pdfs.size() / (n - 1)` with a zero divisor — reachable, since the
admission check of line 129 admits `categoryIdx = 0, n = 1`: that division is
undefined behavior in C++ (a trap on real targets), so the model assigns it no
result at all.  Otherwise `some` of: the updated processor state (the field
`nCategories` is assigned before the divisibility check) together with `some`
declaration payload on success — the per-slot input flags and the single
`FLAG_OPTIONAL` output (line 145) — or `none` when configuration returns
normally without declaring anything. -/
def ProcLikelihood.configure (p : ProcLikelihood) (n : ℕ) :
    Option (ProcLikelihood × Option (List Flag × Flag)) :=
  if 0 ≤ p.categoryIdx then
    if (n : ℤ) < p.categoryIdx + 1 then some (p, none)
    else if n - 1 = 0 then none
    else
      let p' := { p with nCategories := p.pdfs.length / (n - 1) }
      if p'.nCategories * (n - 1) ≠ p.pdfs.length then some (p', none)
      else some (p', some (confFlags p.categoryIdx n, Flag.FLAG_OPTIONAL))
  else
    if n ≠ p.pdfs.length then some (p, none)
    else some (p, some (confFlags p.categoryIdx n, Flag.FLAG_OPTIONAL))

/-- `ProcNormalize::configure` (ProcNormalize.cc lines 74-92), identically
shaped, with the same `none`-for-zero-divisor convention on the outer
`Option` (line 79 divides by `n - 1`); the payload is the per-slot input
flags (each `FLAG_ALL` slot also declares a mirrored variable-arity output
via `iter << iter++(FLAG_ALL)`). -/
def ProcNormalize.configure (p : ProcNormalize) (n : ℕ) :
    Option (ProcNormalize × Option (List Flag)) :=
  if 0 ≤ p.categoryIdx then
    if (n : ℤ) < p.categoryIdx + 1 then some (p, none)
    else if n - 1 = 0 then none
    else
      let p' := { p with nCategories := p.maps.length / (n - 1) }
      if p'.nCategories * (n - 1) ≠ p.maps.length then some (p', none)
      else some (p', some (confFlags p.categoryIdx n))
  else
    if n ≠ p.maps.length then some (p, none)
    else some (p, some (confFlags p.categoryIdx n))

/-- The C cast `(int)x` of a double: truncation toward zero. -/
noncomputable def truncToInt (x : ℝ) : ℤ :=
  if 0 ≤ x then ⌊x⌋ else ⌈x⌉

/-- Block selection of `ProcLikelihood::eval` (ProcLikelihood.cc lines
150-169).  With `categoryIdx ≥ 0` the code computes `int cat = (int)*iter`:
`iter` still points at slot 0, so the cast is applied to the FIRST value of
the FIRST slot (the advanced copy `iter2` of lines 154-156 is never used).
`none` models the abstention return of lines 159-162; on success the block
`pdfs.begin() + cat*(n-1) .. + (n-1)` is selected (lines 164-165). -/
noncomputable def likSelectBlock (p : ProcLikelihood) (slots : List (List ℝ)) (n : ℕ) :
    Option (List SigBkg) :=
  if 0 ≤ p.categoryIdx then
    let cat := truncToInt ((slots.headD []).headD 0)
    if cat < 0 ∨ (p.nCategories : ℤ) ≤ cat then none
    else some ((p.pdfs.drop (cat.toNat * (n - 1))).take (n - 1))
  else some p.pdfs

/-- The inner loop of `ProcLikelihood::eval` over one slot's values
(ProcLikelihood.cc lines 178-189): clamp both densities to `max 0 _`, skip the
value entirely when the clamped sum is below `1.0e-30`, otherwise multiply the
two accumulators and count the value.  Accumulator: `(vars, signal,
background)`. -/
noncomputable def slotFold (pdf : SigBkg) : List ℝ → ℕ × ℝ × ℝ → ℕ × ℝ × ℝ
  | [], acc => acc
  | value :: rest, (vars, signal, background) =>
    if max 0 (pdf.signal.eval value) + max 0 (pdf.background.eval value) < 1 / 10 ^ 30 then
      slotFold pdf rest (vars, signal, background)
    else
      slotFold pdf rest
        (vars + 1, signal * max 0 (pdf.signal.eval value),
          background * max 0 (pdf.background.eval value))

/-- The remainder of the outer loop of `ProcLikelihood::eval` once the slot
counter has passed `categoryIdx` (or when there is no category): each
remaining PDF pair is paired with the next slot in order. -/
noncomputable def foldPair : List SigBkg → List (List ℝ) → ℕ × ℝ × ℝ → ℕ × ℝ × ℝ
  | [], _, acc => acc
  | pdf :: rest, slots, acc => foldPair rest slots.tail (slotFold pdf (slots.headD []) acc)

/-- The outer loop of `ProcLikelihood::eval` (ProcLikelihood.cc lines
175-191): `for(int i = 0; pdf != last; ++iter, i++)` walking the slots,
skipping the slot with `i == categoryIdx` via `continue` (which advances the
slot cursor but not the PDF cursor).  Since `i` strictly increases, the
`continue` branch fires at most once; after it no later `i` can equal
`categoryIdx` again, so the rest of the loop is exactly `foldPair`. -/
noncomputable def likAccum (catIdx : ℤ) :
    List SigBkg → List (List ℝ) → ℤ → ℕ × ℝ × ℝ → ℕ × ℝ × ℝ
  | [], _, _, acc => acc
  | pdf :: rest, slots, i, acc =>
    if i = catIdx then foldPair (pdf :: rest) slots.tail acc
    else likAccum catIdx rest slots.tail (i + 1) (slotFold pdf (slots.headD []) acc)

/-- `ProcLikelihood::eval` (ProcLikelihood.cc lines 148-197).  The result is
the list of output commits: `iter()` = `[[]]` (abstention), `iter(x)` =
`[[x]]`.  Accumulators start at `signal = bias`, `background = 1.0`
(lines 172-173); the decision is line 193. -/
noncomputable def ProcLikelihood.eval (p : ProcLikelihood) (slots : List (List ℝ)) (n : ℕ) :
    List (List ℝ) :=
  match likSelectBlock p slots n with
  | none => [[]]
  | some block =>
    match likAccum p.categoryIdx block slots 0 (0, p.bias, 1) with
    | (vars, signal, background) =>
      if vars = 0 ∨ signal + background < Real.exp (-6 * (vars : ℝ) - 2) then [[]]
      else [[signal / (signal + background)]]

/-- Block selection of `ProcNormalize::eval` (ProcNormalize.cc lines 96-116),
with the same unused-`iter2` slip: `cat` is cast from the first value of the
first slot (line 104). -/
noncomputable def normSelectBlock (p : ProcNormalize) (slots : List (List ℝ)) (n : ℕ) :
    Option (List Map) :=
  if 0 ≤ p.categoryIdx then
    let cat := truncToInt ((slots.headD []).headD 0)
    if cat < 0 ∨ (p.nCategories : ℤ) ≤ cat then none
    else some ((p.maps.drop (cat.toNat * (n - 1))).take (n - 1))
  else some p.maps

/-- The remainder of the `ProcNormalize::eval` loop once the slot counter has
passed `categoryIdx`: each remaining map produces one commit holding the
slot's values sent through `spline.integral((v - min) / width)`
(ProcNormalize.cc lines 121-128). -/
noncomputable def normMapAll : List Map → List (List ℝ) → List (List ℝ)
  | [], _ => []
  | m :: rest, slots =>
    ((slots.headD []).map fun v => m.spline.integral ((v - m.min) / m.width)) ::
      normMapAll rest slots.tail

/-- The output loop of `ProcNormalize::eval` (ProcNormalize.cc lines
118-130): same `continue`-at-`categoryIdx` structure as `likAccum`; the skip
produces no commit for the category slot. -/
noncomputable def normLoop (catIdx : ℤ) : List Map → List (List ℝ) → ℤ → List (List ℝ)
  | [], _, _ => []
  | m :: rest, slots, i =>
    if i = catIdx then normMapAll (m :: rest) slots.tail
    else
      ((slots.headD []).map fun v => m.spline.integral ((v - m.min) / m.width)) ::
        normLoop catIdx rest slots.tail (i + 1)

/-- `ProcNormalize::eval` (ProcNormalize.cc lines 94-131).  When the category
cast is out of range the code runs `for(; iter; ++iter) iter();`
(lines 106-107): one empty commit per remaining input slot — starting from
slot 0, hence including the category slot itself. -/
noncomputable def ProcNormalize.eval (p : ProcNormalize) (slots : List (List ℝ)) (n : ℕ) :
    List (List ℝ) :=
  match normSelectBlock p slots n with
  | none => slots.map fun _ => []
  | some block => normLoop p.categoryIdx block slots 0

/-- Spec-side pairing of a selected block with the slots it is walked
against, in order, an absent slot reading as the empty value list. -/
def pairUp {α : Type} : List α → List (List ℝ) → List (α × List ℝ)
  | [], _ => []
  | x :: xs, slots => (x, slots.headD []) :: pairUp xs slots.tail

/-- The slots actually paired with the selected block: when a category slot
exists it is removed from the slot list, otherwise the slots are used as
given. -/
def slotsSansCategory (catIdx : ℤ) (slots : List (List ℝ)) : List (List ℝ) :=
  if 0 ≤ catIdx then slots.eraseIdx catIdx.toNat else slots

/-! Helper lemmas about the loop embeddings. -/

lemma eraseIdx_zero_tail {α : Type} (l : List α) : l.eraseIdx 0 = l.tail := by
  cases l <;> rfl

lemma eraseIdx_succ_headD {α : Type} (l : List α) (m : ℕ) (d : α) :
    (l.eraseIdx (m + 1)).headD d = l.headD d := by
  cases l <;> rfl

lemma eraseIdx_succ_tail {α : Type} (l : List α) (m : ℕ) :
    (l.eraseIdx (m + 1)).tail = l.tail.eraseIdx m := by
  cases l <;> rfl

lemma likAccum_of_lt (catIdx : ℤ) (pdfs : List SigBkg) (slots : List (List ℝ))
    (i : ℤ) (acc : ℕ × ℝ × ℝ) (h : catIdx < i) :
    likAccum catIdx pdfs slots i acc = foldPair pdfs slots acc := by
  induction pdfs generalizing slots i acc with
  | nil => rfl
  | cons pdf rest ih =>
    rw [likAccum, foldPair]
    rw [if_neg (by omega)]
    exact ih slots.tail (i + 1) _ (by omega)

lemma likAccum_erase (catIdx : ℤ) (pdfs : List SigBkg) (slots : List (List ℝ))
    (i : ℤ) (acc : ℕ × ℝ × ℝ) (h : i ≤ catIdx) :
    likAccum catIdx pdfs slots i acc = foldPair pdfs (slots.eraseIdx (catIdx - i).toNat) acc := by
  induction pdfs generalizing slots i acc with
  | nil => rfl
  | cons pdf rest ih =>
    by_cases hi : i = catIdx
    · rw [likAccum, if_pos hi]
      have h0 : (catIdx - i).toNat = 0 := by omega
      rw [h0, eraseIdx_zero_tail]
    · have hlt : i < catIdx := lt_of_le_of_ne h hi
      obtain ⟨m, hm⟩ : ∃ m, (catIdx - i).toNat = m + 1 := ⟨(catIdx - i - 1).toNat, by omega⟩
      rw [likAccum, if_neg hi, ih slots.tail (i + 1) _ (by omega), hm, foldPair,
        eraseIdx_succ_headD, eraseIdx_succ_tail]
      have hm' : (catIdx - (i + 1)).toNat = m := by omega
      rw [hm']

lemma normLoop_of_lt (catIdx : ℤ) (maps : List Map) (slots : List (List ℝ))
    (i : ℤ) (h : catIdx < i) :
    normLoop catIdx maps slots i = normMapAll maps slots := by
  induction maps generalizing slots i with
  | nil => rfl
  | cons m rest ih =>
    rw [normLoop, if_neg (by omega), ih slots.tail (i + 1) (by omega)]
    rfl

lemma normLoop_erase (catIdx : ℤ) (maps : List Map) (slots : List (List ℝ))
    (i : ℤ) (h : i ≤ catIdx) :
    normLoop catIdx maps slots i = normMapAll maps (slots.eraseIdx (catIdx - i).toNat) := by
  induction maps generalizing slots i with
  | nil => rfl
  | cons m rest ih =>
    by_cases hi : i = catIdx
    · rw [normLoop, if_pos hi]
      have h0 : (catIdx - i).toNat = 0 := by omega
      rw [h0, eraseIdx_zero_tail]
    · have hlt : i < catIdx := lt_of_le_of_ne h hi
      obtain ⟨m', hm⟩ : ∃ m', (catIdx - i).toNat = m' + 1 := ⟨(catIdx - i - 1).toNat, by omega⟩
      rw [normLoop, if_neg hi, ih slots.tail (i + 1) (by omega), hm, normMapAll,
        eraseIdx_succ_headD, eraseIdx_succ_tail]
      have hm' : (catIdx - (i + 1)).toNat = m' := by omega
      rw [hm']

lemma normMapAll_pairUp (maps : List Map) (slots : List (List ℝ)) :
    normMapAll maps slots =
      (pairUp maps slots).map fun q =>
        q.2.map fun v => q.1.spline.integral ((v - q.1.min) / q.1.width) := by
  induction maps generalizing slots with
  | nil => rfl
  | cons m rest ih => rw [normMapAll, pairUp, List.map_cons, ih]

lemma slotFold_nonneg (pdf : SigBkg) (values : List ℝ) (acc : ℕ × ℝ × ℝ)
    (hs : 0 ≤ acc.2.1) (hb : 0 ≤ acc.2.2) :
    0 ≤ (slotFold pdf values acc).2.1 ∧ 0 ≤ (slotFold pdf values acc).2.2 := by
  induction values generalizing acc with
  | nil => exact ⟨hs, hb⟩
  | cons v rest ih =>
    obtain ⟨vars, s, b⟩ := acc
    rw [slotFold]
    split
    · exact ih (vars, s, b) hs hb
    · exact ih (vars + 1, s * max 0 (pdf.signal.eval v), b * max 0 (pdf.background.eval v))
        (mul_nonneg hs (le_max_left 0 _)) (mul_nonneg hb (le_max_left 0 _))

lemma foldPair_nonneg (pdfs : List SigBkg) (slots : List (List ℝ)) (acc : ℕ × ℝ × ℝ)
    (hs : 0 ≤ acc.2.1) (hb : 0 ≤ acc.2.2) :
    0 ≤ (foldPair pdfs slots acc).2.1 ∧ 0 ≤ (foldPair pdfs slots acc).2.2 := by
  induction pdfs generalizing slots acc with
  | nil => exact ⟨hs, hb⟩
  | cons pdf rest ih =>
    rw [foldPair]
    obtain ⟨h1, h2⟩ := slotFold_nonneg pdf (slots.headD []) acc hs hb
    exact ih slots.tail _ h1 h2

lemma likAccum_nonneg (catIdx : ℤ) (pdfs : List SigBkg) (slots : List (List ℝ))
    (i : ℤ) (acc : ℕ × ℝ × ℝ) (hs : 0 ≤ acc.2.1) (hb : 0 ≤ acc.2.2) :
    0 ≤ (likAccum catIdx pdfs slots i acc).2.1 ∧
      0 ≤ (likAccum catIdx pdfs slots i acc).2.2 := by
  induction pdfs generalizing slots i acc with
  | nil => exact ⟨hs, hb⟩
  | cons pdf rest ih =>
    rw [likAccum]
    split
    · exact foldPair_nonneg _ _ acc hs hb
    · obtain ⟨h1, h2⟩ := slotFold_nonneg pdf (slots.headD []) acc hs hb
      exact ih slots.tail (i + 1) _ h1 h2

@[simp] lemma truncToInt_zero : truncToInt 0 = 0 := by
  rw [truncToInt, if_pos le_rfl, Int.floor_zero]

@[simp] lemma truncToInt_one : truncToInt 1 = 1 := by
  rw [truncToInt, if_pos zero_le_one, Int.floor_one]

lemma truncToInt_intCast (m : ℤ) : truncToInt (m : ℝ) = m := by
  rw [truncToInt]
  split
  · exact Int.floor_intCast m
  · exact Int.ceil_intCast m

lemma exp_neg_lt_one (x : ℝ) (h : x < 0) : Real.exp x < 1 :=
  Real.exp_lt_one_iff.mpr h

lemma ProcLikelihood.configure_not_admitted (p : ProcLikelihood) (n : ℕ)
    (hc : 0 ≤ p.categoryIdx) (h : admitsCategory p.categoryIdx n = false) :
    p.configure n = some (p, none) := by
  have h' : (n : ℤ) < p.categoryIdx + 1 := by
    simpa [admitsCategory] using h
  rw [ProcLikelihood.configure, if_pos hc, if_pos h']

/-! Concrete calibration data used to exercise the definitions. -/

/-- A histogram PDF with constant density `c` (one bin of normalised content
`c`). -/
noncomputable def constPDF (c : ℝ) : PDF := PDF.histogramPDF (fun _ => c) 1

@[simp] lemma constPDF_eval (c v : ℝ) : PDF.eval (constPDF c) v = c := by
  rw [constPDF, PDF.eval]
  ring

/-- Signal and background both of constant density 1. -/
noncomputable def sbUnit : SigBkg := ⟨constPDF 1, constPDF 1⟩

/-- Signal and background both of constant density 3. -/
noncomputable def sbTriple : SigBkg := ⟨constPDF 3, constPDF 3⟩

/-- Signal density 1, background density 2. -/
noncomputable def sbOneTwo : SigBkg := ⟨constPDF 1, constPDF 2⟩

/-- The identity spline: point value and cumulative integral both the
identity, one entry, unit area. -/
noncomputable def splineId : Spline := ⟨fun x => x, 1, 1, fun x => x⟩

/-- A normalisation map over the unit range with the identity spline. -/
noncomputable def mapUnit : Map := ⟨0, 1, splineId⟩

/-- Likelihood processor with `categoryIdx = 1`, one PDF pair, one category. -/
noncomputable def pLikC1 : ProcLikelihood := ⟨[sbUnit], 1, 1, 1⟩

/-- Normalize processor with `categoryIdx = 1`, one map, one category. -/
noncomputable def pNormC1 : ProcNormalize := ⟨[mapUnit], 1, 1⟩

/-- Two slots: slot 0 holds value 1, the designated slot 1 holds category 0. -/
noncomputable def slotsC1 : List (List ℝ) := [[1], [0]]

/-- Two slots: slot 0 holds value 0, the designated slot 1 holds value 1. -/
noncomputable def slotsC1x : List (List ℝ) := [[0], [1]]

/-- Uncategorised likelihood processor, one unit PDF pair, `bias = 1`. -/
noncomputable def pLikUnit : ProcLikelihood := ⟨[sbUnit], -1, 1, 1⟩

/-- One slot holding the single value 0. -/
noncomputable def slotsOne : List (List ℝ) := [[0]]

/-- C1 (code bug): both `eval` functions with `categoryIdx = 1` cast the
category from the FIRST slot, not from the designated slot 1.  On the event
`slotsC1` the designated slot holds the valid category 0 (`nCategories = 1`),
yet both processors abstain, because the cast is applied to slot 0's value 1
which is out of range; conversely on `slotsC1x`, whose designated slot holds
the out-of-range value 1, both processors select a block.  This contradicts
the spec ("read the (single) value at that slot"), whose intent the dead
advanced iterator copy `iter2` (ProcLikelihood.cc lines 154-156,
ProcNormalize.cc lines 100-102) makes clear in the code itself. -/
theorem category_read_from_first_slot :
    pLikC1.categoryIdx = 1 ∧ pLikC1.nCategories = 1 ∧
    truncToInt ((slotsC1.getD 1 []).headD 0) = 0 ∧
    ProcLikelihood.eval pLikC1 slotsC1 2 = [[]] ∧
    ProcNormalize.eval pNormC1 slotsC1 2 = [[], []] ∧
    truncToInt ((slotsC1x.getD 1 []).headD 0) = 1 ∧
    (likSelectBlock pLikC1 slotsC1x 2).isSome = true ∧
    (normSelectBlock pNormC1 slotsC1x 2).isSome = true := by
  refine ⟨rfl, rfl, ?_, ?_, ?_, ?_, ?_, ?_⟩
  · simp [slotsC1]
  · simp [ProcLikelihood.eval, likSelectBlock, pLikC1, slotsC1]
  · simp [ProcNormalize.eval, normSelectBlock, pNormC1, slotsC1]
  · simp [slotsC1x]
  · simp [likSelectBlock, pLikC1, slotsC1x]
  · simp [normSelectBlock, pNormC1, slotsC1x]

/-- C2: once a PDF block is selected, with the accumulators initialised to
`(0, bias, 1.0)` and folded by the clamp-then-skip-or-multiply inner loop
(`likAccum`/`slotFold`), the processor abstains (single empty commit) if and
only if the informative-value count is 0 or
`signal + background < exp(-6*count - 2)`, and otherwise emits the single
value `signal / (signal + background)`. -/
theorem lik_decision (p : ProcLikelihood) (slots : List (List ℝ)) (n : ℕ)
    (block : List SigBkg) (vars : ℕ) (signal background : ℝ)
    (hblock : likSelectBlock p slots n = some block)
    (haccum : likAccum p.categoryIdx block slots 0 (0, p.bias, 1) =
      (vars, signal, background)) :
    (ProcLikelihood.eval p slots n = [[]] ↔
      vars = 0 ∨ signal + background < Real.exp (-6 * (vars : ℝ) - 2)) ∧
    (¬(vars = 0 ∨ signal + background < Real.exp (-6 * (vars : ℝ) - 2)) →
      ProcLikelihood.eval p slots n = [[signal / (signal + background)]]) := by
  have he : ProcLikelihood.eval p slots n =
      if vars = 0 ∨ signal + background < Real.exp (-6 * (vars : ℝ) - 2) then [[]]
      else [[signal / (signal + background)]] := by
    simp only [ProcLikelihood.eval, hblock, haccum]
  constructor
  · constructor
    · intro h
      by_contra hc
      rw [he, if_neg hc] at h
      simp at h
    · intro h
      rw [he, if_pos h]
  · intro h
    rw [he, if_neg h]

/-- Witness for C2 at a concrete input: one uncategorised unit PDF pair and
one value; the single informative value gives `(vars, signal, background) =
(1, 1, 1)` and the processor emits `1/(1+1)`. -/
theorem lik_decision_witness :
    likSelectBlock pLikUnit slotsOne 1 = some [sbUnit] ∧
    likAccum pLikUnit.categoryIdx [sbUnit] slotsOne 0 (0, pLikUnit.bias, 1) = (1, 1, 1) ∧
    ((ProcLikelihood.eval pLikUnit slotsOne 1 = [[]] ↔
        (1 : ℕ) = 0 ∨ (1 : ℝ) + 1 < Real.exp (-6 * ((1 : ℕ) : ℝ) - 2)) ∧
      (¬((1 : ℕ) = 0 ∨ (1 : ℝ) + 1 < Real.exp (-6 * ((1 : ℕ) : ℝ) - 2)) →
        ProcLikelihood.eval pLikUnit slotsOne 1 = [[(1 : ℝ) / (1 + 1)]])) := by
  have h1 : likSelectBlock pLikUnit slotsOne 1 = some [sbUnit] := by
    simp [likSelectBlock, pLikUnit]
  have h2 : likAccum pLikUnit.categoryIdx [sbUnit] slotsOne 0 (0, pLikUnit.bias, 1) =
      (1, 1, 1) := by
    norm_num [likAccum, slotFold, pLikUnit, slotsOne, sbUnit]
  exact ⟨h1, h2, lik_decision pLikUnit slotsOne 1 [sbUnit] 1 1 1 h1 h2⟩

/-- C3 counterexample: the admission check of both `configure` functions
admits `categoryIdx = 0` with slot count `n = 1`, and there the divisor
`n - 1` is zero — the subsequent unsigned division `pdfs.size() / (n - 1)` is
executed with a zero divisor. -/
theorem admission_zero_divisor_cex :
    admitsCategory 0 1 = true ∧ (1 : ℕ) - 1 = 0 := ⟨rfl, rfl⟩

/-- C3 amended: the admission check guarantees a nonzero divisor only
together with `categoryIdx ≥ 1`; the check alone also admits
`categoryIdx = 0, n = 1`, where the divisor is zero. -/
theorem admission_positive_divisor (categoryIdx : ℤ) (n : ℕ)
    (hcat : 1 ≤ categoryIdx) (hadm : admitsCategory categoryIdx n = true) :
    0 < n - 1 := by
  rw [admitsCategory, decide_eq_true_iff] at hadm
  omega

/-- Witness for the amended C3 at `categoryIdx = 1, n = 2`. -/
theorem admission_positive_divisor_witness :
    (1 : ℤ) ≤ 1 ∧ admitsCategory 1 2 = true ∧ 0 < 2 - 1 :=
  ⟨le_refl 1, rfl, admission_positive_divisor 1 2 (le_refl 1) rfl⟩

/-- Likelihood processor with `categoryIdx = 0` and two categories. -/
noncomputable def pLikC4 : ProcLikelihood := ⟨[sbUnit], 0, 2, 1⟩

/-- Normalize processor with `categoryIdx = 0` and two categories. -/
noncomputable def pNormC4 : ProcNormalize := ⟨[mapUnit], 0, 2⟩

/-- Two slots: the category slot holds 1, the data slot holds 5. -/
noncomputable def slotsC4 : List (List ℝ) := [[1], [5]]

/-- C4: with `categoryIdx ≥ 0`, block selection succeeds in both processors
exactly when the cast category value lies in `[0, nCategories)` (the value the
code casts is the first value of the first slot, see C1); an out-of-range
value makes the event abstain — the empty commit for the likelihood
processor, one empty commit per slot for the normalize processor — rather
than raising an error. -/
theorem category_range_gate (p : ProcLikelihood) (q : ProcNormalize)
    (slots : List (List ℝ)) (n : ℕ)
    (hp : 0 ≤ p.categoryIdx) (hq : 0 ≤ q.categoryIdx) :
    ((likSelectBlock p slots n).isSome ↔
      0 ≤ truncToInt ((slots.headD []).headD 0) ∧
        truncToInt ((slots.headD []).headD 0) < (p.nCategories : ℤ)) ∧
    ((normSelectBlock q slots n).isSome ↔
      0 ≤ truncToInt ((slots.headD []).headD 0) ∧
        truncToInt ((slots.headD []).headD 0) < (q.nCategories : ℤ)) ∧
    (likSelectBlock p slots n = none → ProcLikelihood.eval p slots n = [[]]) ∧
    (normSelectBlock q slots n = none →
      ProcNormalize.eval q slots n = slots.map fun _ => []) := by
  refine ⟨?_, ?_, ?_, ?_⟩
  · simp only [likSelectBlock, if_pos hp]
    by_cases hc : truncToInt ((slots.headD []).headD 0) < 0 ∨
        (p.nCategories : ℤ) ≤ truncToInt ((slots.headD []).headD 0)
    · rw [if_pos hc]
      simp only [Option.isSome_none, Bool.false_eq_true, false_iff]
      omega
    · rw [if_neg hc]
      simp only [Option.isSome_some, true_iff]
      omega
  · simp only [normSelectBlock, if_pos hq]
    by_cases hc : truncToInt ((slots.headD []).headD 0) < 0 ∨
        (q.nCategories : ℤ) ≤ truncToInt ((slots.headD []).headD 0)
    · rw [if_pos hc]
      simp only [Option.isSome_none, Bool.false_eq_true, false_iff]
      omega
    · rw [if_neg hc]
      simp only [Option.isSome_some, true_iff]
      omega
  · intro h
    simp [ProcLikelihood.eval, h]
  · intro h
    simp [ProcNormalize.eval, h]

/-- Witness for C4 at a concrete input: category value 1 with two
categories — both selections succeed. -/
theorem category_range_gate_witness :
    0 ≤ pLikC4.categoryIdx ∧ 0 ≤ pNormC4.categoryIdx ∧
    (((likSelectBlock pLikC4 slotsC4 2).isSome ↔
      0 ≤ truncToInt ((slotsC4.headD []).headD 0) ∧
        truncToInt ((slotsC4.headD []).headD 0) < (pLikC4.nCategories : ℤ)) ∧
    ((normSelectBlock pNormC4 slotsC4 2).isSome ↔
      0 ≤ truncToInt ((slotsC4.headD []).headD 0) ∧
        truncToInt ((slotsC4.headD []).headD 0) < (pNormC4.nCategories : ℤ)) ∧
    (likSelectBlock pLikC4 slotsC4 2 = none → ProcLikelihood.eval pLikC4 slotsC4 2 = [[]]) ∧
    (normSelectBlock pNormC4 slotsC4 2 = none →
      ProcNormalize.eval pNormC4 slotsC4 2 = slotsC4.map fun _ => [])) := by
  have hp : 0 ≤ pLikC4.categoryIdx := by norm_num [pLikC4]
  have hq : 0 ≤ pNormC4.categoryIdx := by norm_num [pNormC4]
  exact ⟨hp, hq, category_range_gate pLikC4 pNormC4 slotsC4 2 hp hq⟩

/-- Normalize processor with `categoryIdx = 0` and a single category. -/
noncomputable def pNormC5 : ProcNormalize := ⟨[mapUnit], 0, 1⟩

/-- Two slots: the category slot holds 0, the data slot holds two values. -/
noncomputable def slotsC5 : List (List ℝ) := [[0], [5, 6]]

/-- C5: once a map block is selected, the output is exactly the block paired
in order with the slot list minus the category slot, each slot's values sent
one-for-one through `spline.integral((v - min) / width)`; consequently every
commit has exactly as many values as its input slot, for any input arity. -/
theorem norm_arity_preserving (p : ProcNormalize) (slots : List (List ℝ)) (n : ℕ)
    (block : List Map) (hblock : normSelectBlock p slots n = some block) :
    ProcNormalize.eval p slots n =
      (pairUp block (slotsSansCategory p.categoryIdx slots)).map
        (fun q => q.2.map fun v => q.1.spline.integral ((v - q.1.min) / q.1.width)) ∧
    (ProcNormalize.eval p slots n).map List.length =
      (pairUp block (slotsSansCategory p.categoryIdx slots)).map fun q => q.2.length := by
  have hmain : ProcNormalize.eval p slots n =
      (pairUp block (slotsSansCategory p.categoryIdx slots)).map
        (fun q => q.2.map fun v => q.1.spline.integral ((v - q.1.min) / q.1.width)) := by
    have he : ProcNormalize.eval p slots n = normLoop p.categoryIdx block slots 0 := by
      simp only [ProcNormalize.eval, hblock]
    rw [he, slotsSansCategory]
    by_cases hc : 0 ≤ p.categoryIdx
    · rw [if_pos hc, ← normMapAll_pairUp]
      have h := normLoop_erase p.categoryIdx block slots 0 hc
      simpa using h
    · rw [if_neg hc, ← normMapAll_pairUp]
      exact normLoop_of_lt p.categoryIdx block slots 0 (by omega)
  refine ⟨hmain, ?_⟩
  rw [hmain, List.map_map]
  simp [Function.comp_def]

/-- Witness for C5 at a concrete input: one map, data slot of arity 2. -/
theorem norm_arity_preserving_witness :
    normSelectBlock pNormC5 slotsC5 2 = some [mapUnit] ∧
    (ProcNormalize.eval pNormC5 slotsC5 2 =
      (pairUp [mapUnit] (slotsSansCategory pNormC5.categoryIdx slotsC5)).map
        (fun q => q.2.map fun v => q.1.spline.integral ((v - q.1.min) / q.1.width)) ∧
    (ProcNormalize.eval pNormC5 slotsC5 2).map List.length =
      (pairUp [mapUnit] (slotsSansCategory pNormC5.categoryIdx slotsC5)).map
        fun q => q.2.length) := by
  have hb : normSelectBlock pNormC5 slotsC5 2 = some [mapUnit] := by
    simp [normSelectBlock, pNormC5, slotsC5]
  exact ⟨hb, norm_arity_preserving pNormC5 slotsC5 2 [mapUnit] hb⟩

/-- Uncategorised likelihood processor with NEGATIVE bias `-1/2` and one PDF
pair of densities (signal 1, background 2). -/
noncomputable def pLikNegBias : ProcLikelihood := ⟨[sbOneTwo], -1, 1, -(1/2)⟩

/-- C6 counterexample: with the (unconstrained) calibration bias `-1/2`, the
single value is informative (density sum `3 ≥ 1e-30`) and the underflow
guard passes (`-1/2 + 2 = 3/2 ≥ exp(-8)`), yet the emitted value is
`-1/3 ∉ [0,1]`.  The claim quantifies over every likelihood evaluation and
places no restriction on `bias`, so it fails as stated. -/
theorem lik_negative_bias_cex :
    ProcLikelihood.eval pLikNegBias slotsOne 1 = [[-(1 / 3 : ℝ)]] ∧
    ¬(0 ≤ -(1 / 3 : ℝ)) := by
  constructor
  · have hsel : likSelectBlock pLikNegBias slotsOne 1 = some [sbOneTwo] := by
      simp [likSelectBlock, pLikNegBias]
    have hacc : likAccum pLikNegBias.categoryIdx [sbOneTwo] slotsOne 0
        (0, pLikNegBias.bias, 1) = (1, -(1 / 2), 2) := by
      norm_num [likAccum, slotFold, pLikNegBias, slotsOne, sbOneTwo]
    have hcond : ¬((1 : ℕ) = 0 ∨
        (-(1 / 2) + 2 : ℝ) < Real.exp (-6 * ((1 : ℕ) : ℝ) - 2)) := by
      push_neg
      refine ⟨one_ne_zero, ?_⟩
      have h1 : Real.exp (-6 * ((1 : ℕ) : ℝ) - 2) < 1 :=
        exp_neg_lt_one _ (by norm_num)
      refine le_trans (le_of_lt h1) ?_
      norm_num
    simp only [ProcLikelihood.eval, hsel, hacc]
    rw [if_neg hcond]
    norm_num
  · norm_num

/-- C6 amended: provided the calibration bias is nonnegative, every value the
likelihood processor emits lies in `[0, 1]` (in particular under the claim's
hypotheses, which are exactly what makes it emit at all). -/
theorem lik_output_in_unit_interval (p : ProcLikelihood) (slots : List (List ℝ))
    (n : ℕ) (x : ℝ) (hbias : 0 ≤ p.bias)
    (hx : ProcLikelihood.eval p slots n = [[x]]) :
    0 ≤ x ∧ x ≤ 1 := by
  cases hsel : likSelectBlock p slots n with
  | none =>
    simp only [ProcLikelihood.eval, hsel] at hx
    simp at hx
  | some block =>
    have hnn := likAccum_nonneg p.categoryIdx block slots 0 (0, p.bias, 1)
      hbias zero_le_one
    rcases hacc : likAccum p.categoryIdx block slots 0 (0, p.bias, 1) with
      ⟨vars, signal, background⟩
    rw [hacc] at hnn
    simp only [ProcLikelihood.eval, hsel, hacc] at hx
    by_cases hcond : vars = 0 ∨ signal + background < Real.exp (-6 * (vars : ℝ) - 2)
    · rw [if_pos hcond] at hx
      simp at hx
    · rw [if_neg hcond] at hx
      simp only [List.cons.injEq, and_true] at hx
      subst hx
      push_neg at hcond
      obtain ⟨-, hge⟩ := hcond
      have hpos : 0 < signal + background := lt_of_lt_of_le (Real.exp_pos _) hge
      constructor
      · exact div_nonneg hnn.1 (le_of_lt hpos)
      · rw [div_le_one hpos]
        have hb : (0 : ℝ) ≤ background := hnn.2
        linarith

/-- Witness for the amended C6: unit PDF pair, `bias = 1`, one value —
the processor emits `1/(1+1)`, which lies in `[0, 1]`. -/
theorem lik_output_in_unit_interval_witness :
    0 ≤ pLikUnit.bias ∧
    ProcLikelihood.eval pLikUnit slotsOne 1 = [[(1 : ℝ) / (1 + 1)]] ∧
    (0 ≤ (1 : ℝ) / (1 + 1) ∧ (1 : ℝ) / (1 + 1) ≤ 1) := by
  have hbias : 0 ≤ pLikUnit.bias := by norm_num [pLikUnit]
  have hsel : likSelectBlock pLikUnit slotsOne 1 = some [sbUnit] := by
    simp [likSelectBlock, pLikUnit]
  have hacc : likAccum pLikUnit.categoryIdx [sbUnit] slotsOne 0
      (0, pLikUnit.bias, 1) = (1, 1, 1) := by
    norm_num [likAccum, slotFold, pLikUnit, slotsOne, sbUnit]
  have hcond : ¬((1 : ℕ) = 0 ∨
      ((1 : ℝ) + 1) < Real.exp (-6 * ((1 : ℕ) : ℝ) - 2)) := by
    push_neg
    refine ⟨one_ne_zero, ?_⟩
    have h1 : Real.exp (-6 * ((1 : ℕ) : ℝ) - 2) < 1 :=
      exp_neg_lt_one _ (by norm_num)
    linarith
  have hx : ProcLikelihood.eval pLikUnit slotsOne 1 = [[(1 : ℝ) / (1 + 1)]] := by
    simp only [ProcLikelihood.eval, hsel, hacc]
    rw [if_neg hcond]
  exact ⟨hbias, hx, lik_output_in_unit_interval pLikUnit slotsOne 1 _ hbias hx⟩

/-- Five unit PDF pairs. -/
noncomputable def pdfsFive : List SigBkg := List.replicate 5 sbUnit

/-- Five unit maps. -/
noncomputable def mapsFive : List Map := List.replicate 5 mapUnit

/-- Likelihood processor with a 5-entry PDF table, `categoryIdx = 0`, and the
construction-time `nCategories = 1`. -/
noncomputable def pLikFive : ProcLikelihood := ⟨pdfsFive, 0, 1, 1⟩

/-- Normalize processor with a 5-entry map table, `categoryIdx = 0`, and the
construction-time `nCategories = 1`. -/
noncomputable def pNormFive : ProcNormalize := ⟨mapsFive, 0, 1⟩

/-- C7 counterexample: `categoryIdx = 0, n = 1` is admitted by the check and
lies inside the claim's scope — the 5-entry table size is not expressible as
`k * (n - 1) = k * 0` — yet neither `configure` returns cleanly without
declaring outputs there: both execute the unsigned division
`table.size() / 0`, undefined behavior (modelled by the resultless `none`),
before any return could happen. -/
theorem configure_zero_divisor_cex :
    ¬((1 - 1) ∣ pLikFive.pdfs.length) ∧ pLikFive.configure 1 = none ∧
    ¬((1 - 1) ∣ pNormFive.maps.length) ∧ pNormFive.configure 1 = none := by
  refine ⟨?_, rfl, ?_, rfl⟩
  · simp [pLikFive, pdfsFive, Nat.zero_dvd]
  · simp [pNormFive, mapsFive, Nat.zero_dvd]

/-- C7 amended: both `configure` functions fail — returning normally while
declaring nothing — whenever the table size is not a multiple of `n - 1` and
the divisor `n - 1` is nonzero (categorised case), or differs from `n`
(uncategorised case); at the one admitted zero-divisor point
(`categoryIdx = 0, n = 1`) the division itself is executed with divisor zero
(undefined behavior) instead of a clean return. -/
theorem configure_shape_mismatch_fails (p : ProcLikelihood) (q : ProcNormalize)
    (n : ℕ) :
    (0 ≤ p.categoryIdx → 0 < n - 1 → ¬((n - 1) ∣ p.pdfs.length) →
      (p.configure n).map Prod.snd = some none) ∧
    (p.categoryIdx < 0 → n ≠ p.pdfs.length →
      (p.configure n).map Prod.snd = some none) ∧
    (0 ≤ q.categoryIdx → 0 < n - 1 → ¬((n - 1) ∣ q.maps.length) →
      (q.configure n).map Prod.snd = some none) ∧
    (q.categoryIdx < 0 → n ≠ q.maps.length →
      (q.configure n).map Prod.snd = some none) := by
  refine ⟨?_, ?_, ?_, ?_⟩
  · intro hc hdiv hdvd
    simp only [ProcLikelihood.configure, if_pos hc]
    by_cases hadm : (n : ℤ) < p.categoryIdx + 1
    · rw [if_pos hadm]
      rfl
    · rw [if_neg hadm, if_neg (by omega : ¬(n - 1 = 0))]
      have hne : p.pdfs.length / (n - 1) * (n - 1) ≠ p.pdfs.length := by
        intro heq
        exact hdvd ⟨p.pdfs.length / (n - 1), by rw [mul_comm]; exact heq.symm⟩
      rw [if_pos hne]
      rfl
  · intro hc hn
    rw [ProcLikelihood.configure, if_neg (by omega), if_pos hn]
    rfl
  · intro hc hdiv hdvd
    simp only [ProcNormalize.configure, if_pos hc]
    by_cases hadm : (n : ℤ) < q.categoryIdx + 1
    · rw [if_pos hadm]
      rfl
    · rw [if_neg hadm, if_neg (by omega : ¬(n - 1 = 0))]
      have hne : q.maps.length / (n - 1) * (n - 1) ≠ q.maps.length := by
        intro heq
        exact hdvd ⟨q.maps.length / (n - 1), by rw [mul_comm]; exact heq.symm⟩
      rw [if_pos hne]
      rfl
  · intro hc hn
    rw [ProcNormalize.configure, if_neg (by omega), if_pos hn]
    rfl

/-- Witness for the amended C7: table size 5 with `n = 4` (so block size 3,
nonzero and not dividing 5) fails configuration cleanly for both
processors. -/
theorem configure_shape_mismatch_fails_witness :
    (pLikFive.configure 4).map Prod.snd = some none ∧
    (pNormFive.configure 4).map Prod.snd = some none := by
  have h := configure_shape_mismatch_fails pLikFive pNormFive 4
  refine ⟨h.1 ?_ ?_ ?_, h.2.2.1 ?_ ?_ ?_⟩
  · norm_num [pLikFive]
  · norm_num
  · simp only [pLikFive, pdfsFive, List.length_replicate]
    omega
  · norm_num [pNormFive]
  · norm_num
  · simp only [pNormFive, mapsFive, List.length_replicate]
    omega

/-- Normalize processor with `categoryIdx = 0` and a single category (C8). -/
noncomputable def pNormC8 : ProcNormalize := ⟨[mapUnit], 0, 1⟩

/-- Two slots: the category slot holds the out-of-range value 1 (only
category 0 exists), the data slot holds 5. -/
noncomputable def slotsC8 : List (List ℝ) := [[1], [5]]

/-- C8 counterexample: on an out-of-range category the abstention loop
`for(; iter; ++iter) iter();` starts at slot 0 and emits one empty commit per
INPUT slot — two commits here, although there is only one non-category slot.
The claim's "only for non-category slots" predicts a single commit. -/
theorem norm_abstention_includes_category_cex :
    ProcNormalize.eval pNormC8 slotsC8 2 = [[], []] ∧
    (ProcNormalize.eval pNormC8 slotsC8 2).length ≠ 1 := by
  have h : ProcNormalize.eval pNormC8 slotsC8 2 = [[], []] := by
    simp [ProcNormalize.eval, normSelectBlock, pNormC8, slotsC8]
  refine ⟨h, ?_⟩
  rw [h]
  simp

/-- C8 amended: on an out-of-range category the normalize processor emits
exactly one empty commit for EVERY input slot — the category slot included —
and then stops; the number of commits equals the total slot count. -/
theorem norm_abstention_all_slots (q : ProcNormalize) (slots : List (List ℝ))
    (n : ℕ) (h : normSelectBlock q slots n = none) :
    ProcNormalize.eval q slots n = slots.map (fun _ => []) ∧
    (ProcNormalize.eval q slots n).length = slots.length := by
  have he : ProcNormalize.eval q slots n = slots.map (fun _ => []) := by
    simp [ProcNormalize.eval, h]
  refine ⟨he, ?_⟩
  rw [he]
  simp

/-- Witness for the amended C8 at a concrete out-of-range input. -/
theorem norm_abstention_all_slots_witness :
    normSelectBlock pNormC8 slotsC8 2 = none ∧
    (ProcNormalize.eval pNormC8 slotsC8 2 = slotsC8.map (fun _ => []) ∧
      (ProcNormalize.eval pNormC8 slotsC8 2).length = slotsC8.length) := by
  have h : normSelectBlock pNormC8 slotsC8 2 = none := by
    simp [normSelectBlock, pNormC8, slotsC8]
  exact ⟨h, norm_abstention_all_slots pNormC8 slotsC8 2 h⟩

/-- Uncategorised likelihood processor with one PDF pair of equal constant
densities 3 and `bias = 1` (C9). -/
noncomputable def pLikTriple : ProcLikelihood := ⟨[sbTriple], -1, 1, 1⟩

/-- C9: with `bias = 1`, if the accumulation over the selected block yields
exactly one informative value whose signal and background densities agree
(result `(1, s, s)`) and the underflow guard is not breached, the emitted
output is exactly `1/2`. -/
theorem lik_equal_densities_half (p : ProcLikelihood) (slots : List (List ℝ))
    (n : ℕ) (block : List SigBkg) (s : ℝ)
    (hblock : likSelectBlock p slots n = some block)
    (hbias : p.bias = 1)
    (haccum : likAccum p.categoryIdx block slots 0 (0, p.bias, 1) = (1, s, s))
    (hguard : Real.exp (-8) ≤ s + s) :
    ProcLikelihood.eval p slots n = [[1 / 2]] := by
  have hexp : (-6 * ((1 : ℕ) : ℝ) - 2) = -8 := by push_cast; ring
  have hpos : 0 < s + s := lt_of_lt_of_le (Real.exp_pos _) hguard
  have hcond : ¬((1 : ℕ) = 0 ∨ s + s < Real.exp (-6 * ((1 : ℕ) : ℝ) - 2)) := by
    push_neg
    refine ⟨one_ne_zero, ?_⟩
    rw [hexp]
    exact hguard
  have hval : s / (s + s) = 1 / 2 := by
    rw [div_eq_div_iff (ne_of_gt hpos) (by norm_num : (2 : ℝ) ≠ 0)]
    ring
  simp only [ProcLikelihood.eval, hblock, haccum]
  rw [if_neg hcond, hval]

/-- Witness for C9: equal densities 3/3, one value — output `1/2`. -/
theorem lik_equal_densities_half_witness :
    likSelectBlock pLikTriple slotsOne 1 = some [sbTriple] ∧
    pLikTriple.bias = 1 ∧
    likAccum pLikTriple.categoryIdx [sbTriple] slotsOne 0 (0, pLikTriple.bias, 1) =
      (1, 3, 3) ∧
    Real.exp (-8) ≤ (3 : ℝ) + 3 ∧
    ProcLikelihood.eval pLikTriple slotsOne 1 = [[1 / 2]] := by
  have hsel : likSelectBlock pLikTriple slotsOne 1 = some [sbTriple] := by
    simp [likSelectBlock, pLikTriple]
  have hbias : pLikTriple.bias = 1 := rfl
  have hacc : likAccum pLikTriple.categoryIdx [sbTriple] slotsOne 0
      (0, pLikTriple.bias, 1) = (1, 3, 3) := by
    norm_num [likAccum, slotFold, pLikTriple, slotsOne, sbTriple]
  have hguard : Real.exp (-8) ≤ (3 : ℝ) + 3 := by
    have h1 : Real.exp (-8 : ℝ) < 1 := exp_neg_lt_one _ (by norm_num)
    linarith
  exact ⟨hsel, hbias, hacc, hguard,
    lik_equal_densities_half pLikTriple slotsOne 1 [sbTriple] 3 hsel hbias hacc hguard⟩

/-- C10 counterexample: `categoryIdx = 0`, table size 5, `n = 4`.  The
divisibility check fails (`5/3 * 3 = 3 ≠ 5`) and the field is overwritten
with the truncated quotient `5/3 = 1` — which COINCIDES with the prior
(construction-time) value 1, so the failed configuration does leave
`nCategories` at its prior value, contrary to the claim's final clause. -/
theorem nCategories_unchanged_cex :
    pLikFive.nCategories = 1 ∧
    (pLikFive.configure 4).map Prod.snd = some none ∧
    (pLikFive.configure 4).map (fun r => r.1.nCategories) = some 1 ∧
    pNormFive.nCategories = 1 ∧
    (pNormFive.configure 4).map Prod.snd = some none ∧
    (pNormFive.configure 4).map (fun r => r.1.nCategories) = some 1 :=
  ⟨rfl, rfl, rfl, rfl, rfl, rfl⟩

/-- C10 amended: when the categorised admission check passes, the divisor
`n - 1` is nonzero, and the divisibility check fails, both `configure`
functions return normally declaring nothing, with the stored `nCategories`
overwritten by the truncated quotient `|table| / (n-1)` — a value that may,
but need not, coincide with the prior one; at the admitted zero-divisor
point (`categoryIdx = 0, n = 1`) the division traps before any store. -/
theorem nCategories_overwritten_on_failure (p : ProcLikelihood) (q : ProcNormalize)
    (n : ℕ) (hn : 0 < n - 1)
    (hp : 0 ≤ p.categoryIdx) (hq : 0 ≤ q.categoryIdx)
    (hpn : ¬((n : ℤ) < p.categoryIdx + 1)) (hqn : ¬((n : ℤ) < q.categoryIdx + 1))
    (hpd : p.pdfs.length / (n - 1) * (n - 1) ≠ p.pdfs.length)
    (hqd : q.maps.length / (n - 1) * (n - 1) ≠ q.maps.length) :
    (p.configure n).map Prod.snd = some none ∧
    (p.configure n).map (fun r => r.1.nCategories) = some (p.pdfs.length / (n - 1)) ∧
    (q.configure n).map Prod.snd = some none ∧
    (q.configure n).map (fun r => r.1.nCategories) = some (q.maps.length / (n - 1)) := by
  simp only [ProcLikelihood.configure, ProcNormalize.configure, if_pos hp, if_pos hq,
    if_neg hpn, if_neg hqn, if_neg (by omega : ¬(n - 1 = 0))]
  rw [if_pos hpd, if_pos hqd]
  exact ⟨rfl, rfl, rfl, rfl⟩

/-- Witness for the amended C10 at table size 5, `n = 4`. -/
theorem nCategories_overwritten_on_failure_witness :
    (pLikFive.configure 4).map Prod.snd = some none ∧
    (pLikFive.configure 4).map (fun r => r.1.nCategories) =
      some (pLikFive.pdfs.length / (4 - 1)) ∧
    (pNormFive.configure 4).map Prod.snd = some none ∧
    (pNormFive.configure 4).map (fun r => r.1.nCategories) =
      some (pNormFive.maps.length / (4 - 1)) := by
  refine nCategories_overwritten_on_failure pLikFive pNormFive 4 ?_ ?_ ?_ ?_ ?_ ?_ ?_
  · norm_num
  · norm_num [pLikFive]
  · norm_num [pNormFive]
  · norm_num [pLikFive]
  · norm_num [pNormFive]
  · simp only [pLikFive, pdfsFive, List.length_replicate]
    omega
  · simp only [pNormFive, mapsFive, List.length_replicate]
    omega

end MVAComputer
